import Mathlib

/-!
# TriUnity node core — verification of the specified behavior

Shallow embedding of the TriUnity blockchain node core (Rust) and proofs
about its specified behavior.  The embedding covers:

* `src/storage/merkle.rs` — the `MerkleTree` commitment structure with
  inclusion proofs (`MerkleTree.new`, `generate_proof`, `verify_proof`);
* `src/core/storage/blocks.rs` — `Transaction` / `Block` validation;
* `src/core/consensus/router.rs` — `NetworkMetrics`, `AIModel`,
  `ConsensusRouter.select_optimal_path` and the confidence function;
* `src/core/network/sync.rs` — the `SyncManager` state machine.

Modelling conventions: byte strings are `List Nat`; `u64`/`usize` counters
are `Nat` (no source operation here relies on wrap-around — subtractions
in the source are `saturating_sub` or guarded, which `Nat` subtraction
models exactly); `f64` scores in the source (reliability, probabilities,
weights) are modelled as exact rationals `ℚ` — every arithmetic the
source performs on them (`*`, `+`, `-`, `/` by constants, `max`,
comparisons against decimal literals) is exact on the represented values;
SHA3-256 is modelled as a free term algebra `Hash` (collision-free
idealization: distinct byte strings have distinct leaf hashes and
`node`s are injective), which is the standard idealization for reasoning
about commitment structure.
-/

/-- Idealized SHA3-256 value: the all-zero 32-byte array, the digest of a
byte string, or the digest of the concatenation of two digests. -/
inductive Hash where
  | zero : Hash
  | leaf (data : List Nat) : Hash
  | node (left right : Hash) : Hash
deriving DecidableEq, Repr

/-! ## `src/storage/merkle.rs` -/

/-- One step of a Merkle inclusion proof (`MerkleProofElement`): the
sibling hash and whether the sibling sits to the right of the current
node. -/
structure MerkleProofElement where
  hash : Hash
  is_right : Bool
deriving DecidableEq, Repr

/-- Rust `MerkleProof`: leaf hash, sibling path, claimed root. -/
structure MerkleProof where
  leaf_hash : Hash
  proof : List MerkleProofElement
  root : Hash
deriving DecidableEq, Repr

/-- Rust `MerkleTree`: root plus the leaf hashes. -/
structure MerkleTree where
  root : Hash
  leaves : List Hash
deriving DecidableEq, Repr

namespace MerkleTree

/-- One pass of the level loop in `calculate_root` / `generate_proof`:
`hashes.chunks(2)` hashed pairwise, the last element hashed with itself
when the level has odd cardinality. -/
def next_level : List Hash → List Hash
  | [] => []
  | [a] => [Hash.node a a]
  | a :: b :: rest => Hash.node a b :: next_level rest

theorem next_level_length : ∀ l : List Hash, (next_level l).length = (l.length + 1) / 2
  | [] => by simp [next_level]
  | [_] => by simp [next_level]
  | _ :: _ :: rest => by
    simp only [next_level, List.length_cons, next_level_length rest]
    omega

/-- The `while hashes.len() > 1` loop of `calculate_root`, plus its
empty-input guard. -/
def calculate_root : List Hash → Hash
  | [] => Hash.zero
  | [h] => h
  | a :: b :: rest => calculate_root (next_level (a :: b :: rest))
  termination_by l => l.length
  decreasing_by simp [next_level, next_level_length]; omega

/-- Rust `MerkleTree::new`: hash every item into a leaf, then fold levels. -/
def new (data : List (List Nat)) : MerkleTree :=
  if data = [] then { root := Hash.zero, leaves := [] }
  else
    let leaves := data.map Hash.leaf
    { root := calculate_root leaves, leaves := leaves }

/-- The level loop of `MerkleTree::generate_proof`: collect the sibling
(when it exists in the current level) at each level while walking up. -/
def generate_proof_loop : List Hash → Nat → List MerkleProofElement
  | [], _ => []
  | [_], _ => []
  | a :: b :: rest, index =>
    let level := a :: b :: rest
    let is_right := index % 2 = 1
    let sibling_index := if is_right then index - 1 else index + 1
    (if sibling_index < level.length then
      [{ hash := level.getD sibling_index Hash.zero,
         is_right := !(decide is_right) }]
    else []) ++ generate_proof_loop (next_level level) (index / 2)
  termination_by l _ => l.length
  decreasing_by simp [next_level, next_level_length]; omega

/-- Rust `MerkleTree::generate_proof`: `None` for an out-of-range index,
otherwise the leaf hash, the collected sibling path, and the tree root. -/
def generate_proof (t : MerkleTree) (index : Nat) : Option MerkleProof :=
  if index < t.leaves.length then
    some { leaf_hash := t.leaves.getD index Hash.zero,
           proof := generate_proof_loop t.leaves index,
           root := t.root }
  else none

/-- Rust `MerkleTree::verify_proof`: fold the path from the leaf and compare
with the claimed root. -/
def verify_proof (p : MerkleProof) : Bool :=
  (p.proof.foldl
    (fun current element =>
      if element.is_right then Hash.node current element.hash
      else Hash.node element.hash current)
    p.leaf_hash) = p.root

end MerkleTree

/-! ## `src/core/storage/blocks.rs` -/

/-- Rust `ConsensusData`: which path produced the block, with attesting
validators. -/
inductive ConsensusData where
  | FastLane (validator : List Nat) : ConsensusData
  | SecureLane (validators : List (List Nat)) : ConsensusData
  | HybridPath (fast_validators secure_validators : List (List Nat)) : ConsensusData
  | Emergency (authority_validators : List (List Nat)) : ConsensusData
deriving DecidableEq, Repr

/-- Rust `Transaction`: Rust field `from` is a Lean keyword, rendered `from_`.
The `signature` field models `QuantumSignature`'s opaque byte vector. -/
structure Transaction where
  from_ : List Nat
  to_ : List Nat
  amount : Nat
  fee : Nat
  nonce : Nat
  data : List Nat
  signature : List Nat
deriving DecidableEq, Repr

/-- Rust `BlockHeader`. 32-byte arrays (`previous_hash`, `merkle_root`) are
modelled as `Hash` values. -/
structure BlockHeader where
  version : Nat
  previous_hash : Hash
  merkle_root : Hash
  timestamp : Nat
  height : Nat
  consensus_data : ConsensusData
deriving DecidableEq, Repr

/-- Rust `Block`: header plus ordered transaction list. -/
structure Block where
  header : BlockHeader
  transactions : List Transaction
deriving DecidableEq, Repr

/-- A `u64` in bincode's default (little-endian, fixed 8-byte) encoding. -/
def bincode_u64 (n : Nat) : List Nat :=
  [n % 256, n / 256 % 256, n / 256 ^ 2 % 256, n / 256 ^ 3 % 256,
   n / 256 ^ 4 % 256, n / 256 ^ 5 % 256, n / 256 ^ 6 % 256, n / 256 ^ 7 % 256]

/-- A `Vec<u8>` in bincode's default encoding: 8-byte length prefix then
the bytes. -/
def bincode_bytes (bs : List Nat) : List Nat :=
  bincode_u64 bs.length ++ bs

namespace Transaction

/-- Rust `Transaction::get_signing_data`: bincode serialization of the tuple
`(from, to, amount, fee, nonce, data)` — the signature excluded. -/
def get_signing_data (tx : Transaction) : List Nat :=
  bincode_bytes tx.from_ ++ bincode_bytes tx.to_ ++
  bincode_u64 tx.amount ++ bincode_u64 tx.fee ++ bincode_u64 tx.nonce ++
  bincode_bytes tx.data

/-- Rust `Transaction::validate`. `verify_sig` is the external
`QuantumSignature::verify` capability (Dilithium, out of scope): it takes
the signature bytes, the message, and the public key. -/
def validate (verify_sig : List Nat → List Nat → List Nat → Bool)
    (tx : Transaction) : Bool :=
  if tx.from_ = [] ∨ tx.to_ = [] then false
  else if tx.amount = 0 ∧ tx.data = [] then false
  else verify_sig tx.signature tx.get_signing_data tx.from_

end Transaction

namespace Block

/-- The bincode serialization of a full `Transaction` (the payload hashed
into a Merkle leaf by `Block::calculate_merkle_root`). -/
def tx_encode (tx : Transaction) : List Nat :=
  bincode_bytes tx.from_ ++ bincode_bytes tx.to_ ++
  bincode_u64 tx.amount ++ bincode_u64 tx.fee ++ bincode_u64 tx.nonce ++
  bincode_bytes tx.data ++ bincode_bytes tx.signature

/-- Rust `Block::calculate_merkle_root`: all-zero hash for an empty list,
otherwise the same pairwise level fold as `MerkleTree::calculate_root`,
over the transaction digests. -/
def calculate_merkle_root (transactions : List Transaction) : Hash :=
  if transactions = [] then Hash.zero
  else MerkleTree.calculate_root (transactions.map (fun tx => Hash.leaf (tx_encode tx)))

/-- Rust `Block::validate`: version must be nonzero, the recomputed Merkle
root must equal the declared one, and every transaction must validate. -/
def validate (verify_sig : List Nat → List Nat → List Nat → Bool)
    (b : Block) : Bool :=
  if b.header.version = 0 then false
  else if calculate_merkle_root b.transactions ≠ b.header.merkle_root then false
  else b.transactions.all (Transaction.validate verify_sig)

end Block

/-! ## `src/core/consensus/router.rs` -/

/-- Rust `NetworkMetrics`: a point-in-time snapshot.  The `f64` fields in
`[0,1]` are modelled as exact rationals. -/
structure NetworkMetrics where
  current_tps : Nat
  network_latency : Nat
  validator_count : Nat
  attack_probability : ℚ
  congestion_level : ℚ
  memory_usage : ℚ
  cpu_usage : ℚ
deriving DecidableEq, Repr

/-- Rust `NetworkMetrics::default`. -/
def NetworkMetrics.default : NetworkMetrics :=
  { current_tps := 1000
    network_latency := 100
    validator_count := 100
    attack_probability := 1/10
    congestion_level := 3/10
    memory_usage := 5/10
    cpu_usage := 4/10 }

/-- Rust `ConsensusPath`: the four consensus strategies. -/
inductive ConsensusPath where
  | FastLane (expected_tps finality_time : Nat) (validator_count : Nat) : ConsensusPath
  | SecureLane (validator_threshold : Nat) (security_level decentralization_score : ℚ) : ConsensusPath
  | HybridPath (fast_percentage secure_percentage adaptive_threshold : ℚ) : ConsensusPath
  | EmergencyMode (fallback_validators : Nat) (security_override : Bool) : ConsensusPath
deriving DecidableEq, Repr

/-- Rust `AIModel`: the named-weight map (its six fixed keys rendered as
fields), learning rate, and confidence threshold. -/
structure AIModel where
  security_weight : ℚ
  performance_weight : ℚ
  decentralization_weight : ℚ
  energy_weight : ℚ
  latency_sensitivity : ℚ
  attack_response : ℚ
  learning_rate : ℚ
  confidence_threshold : ℚ
deriving DecidableEq, Repr

namespace AIModel

/-- Rust `AIModel::new`: the initial weights. -/
def new : AIModel :=
  { security_weight := 3/10
    performance_weight := 4/10
    decentralization_weight := 3/10
    energy_weight := 1/10
    latency_sensitivity := 5/10
    attack_response := 8/10
    learning_rate := 1/100
    confidence_threshold := 7/10 }

/-- Rust `AIModel::calculate_confidence`: a function of the metrics only (the
receiver's weights are not read). -/
def calculate_confidence (_model : AIModel) (metrics : NetworkMetrics) : ℚ :=
  let stability := 1 - metrics.congestion_level
  let security := 1 - metrics.attack_probability
  let resources := (2 - metrics.cpu_usage - metrics.memory_usage) / 2
  (stability + security + resources) / 3

/-- Rust `AIModel::adapt_to_conditions`: nudge the security / performance
weights toward observed stress. -/
def adapt_to_conditions (model : AIModel) (metrics : NetworkMetrics) : AIModel :=
  let model :=
    if 5/10 < metrics.attack_probability then
      { model with security_weight := min (model.security_weight + 1/10) (8/10) }
    else model
  if 7/10 < metrics.congestion_level then
    { model with performance_weight := min (model.performance_weight + 1/10) (9/10) }
  else model

end AIModel

/-- Rust `ConsensusRouter` state: the metrics snapshot and the AI model.  The
`performance_history` field is omitted: it is read by no operation
verified here (`select_optimal_path`, `calculate_confidence`,
`update_metrics` never touch it). -/
structure ConsensusRouter where
  network_metrics : NetworkMetrics
  ai_model : AIModel
deriving DecidableEq, Repr

namespace ConsensusRouter

/-- Rust `ConsensusRouter::new`. -/
def new : ConsensusRouter :=
  { network_metrics := NetworkMetrics.default, ai_model := AIModel.new }

/-- Rust `ConsensusRouter::update_metrics`: replace the snapshot wholesale and
let the model adapt. -/
def update_metrics (r : ConsensusRouter) (metrics : NetworkMetrics) : ConsensusRouter :=
  { network_metrics := metrics
    ai_model := r.ai_model.adapt_to_conditions metrics }

/-- Rust `ConsensusRouter::ai_confidence`. -/
def ai_confidence (r : ConsensusRouter) : ℚ :=
  r.ai_model.calculate_confidence r.network_metrics

/-- Rust `ConsensusRouter::select_optimal_path`: the four-rule decision
procedure, first matching rule wins. -/
def select_optimal_path (r : ConsensusRouter) : ConsensusPath :=
  let metrics := r.network_metrics
  let confidence := r.ai_model.calculate_confidence metrics
  if 8/10 < metrics.attack_probability ∨ 95/100 < metrics.congestion_level then
    .EmergencyMode (Nat.max (metrics.validator_count * 3 / 4) 10) true
  else if 4/10 < metrics.attack_probability ∨ confidence < 6/10 then
    .SecureLane (metrics.validator_count * 2 / 3) (95/100) (9/10)
  else if 7/10 < metrics.congestion_level ∧ metrics.attack_probability < 2/10 then
    .FastLane 100000 100 (Nat.max (metrics.validator_count / 4) 21)
  else
    .HybridPath (7/10 - metrics.attack_probability * (5/10))
      (3/10 + metrics.attack_probability * (5/10)) confidence

end ConsensusRouter

/-! ### Spec-side rendering of the routing rules (for the refinement
claim about `select_optimal_path`) -/

/-- Modelled from the spec: `confidence()` as §4.3 words it — the average
of stability `1 − congestion`, security `1 − attack_probability`, and
resource headroom `(2 − cpu_usage − memory_usage) / 2`. -/
def confidence_from_spec (m : NetworkMetrics) : ℚ :=
  ((1 - m.congestion_level) + (1 - m.attack_probability) +
    (2 - m.cpu_usage - m.memory_usage) / 2) / 3

/-- Modelled from the spec: `select_optimal_path()` as §4.3 words it —
four rules evaluated in fixed priority order, first match wins. -/
def select_optimal_path_from_spec (m : NetworkMetrics) : ConsensusPath :=
  if m.attack_probability > 8/10 ∨ m.congestion_level > 95/100 then
    .EmergencyMode (Nat.max 10 (m.validator_count * 3 / 4)) true
  else if m.attack_probability > 4/10 ∨ confidence_from_spec m < 6/10 then
    .SecureLane (m.validator_count * 2 / 3) (95/100) (9/10)
  else if m.congestion_level > 7/10 ∧ m.attack_probability < 2/10 then
    .FastLane 100000 100 (Nat.max 21 (m.validator_count / 4))
  else
    .HybridPath (7/10 - (5/10) * m.attack_probability)
      (3/10 + (5/10) * m.attack_probability) (confidence_from_spec m)

/-! ## `src/core/network/sync.rs` -/

/-- Rust `SyncMode`: the synchronization strategies. -/
inductive SyncMode where
  | FastSync (checkpoint_height : Nat) : SyncMode
  | FullSync (start_height : Nat) : SyncMode
  | BlockSync (missing_range : Nat × Nat) : SyncMode
  | Synced : SyncMode
deriving DecidableEq, Repr

/-- Rust `SyncPeer`. -/
structure SyncPeer where
  node_id : List Nat
  reported_height : Nat
  sync_speed : ℚ
  reliability : ℚ
  is_syncing : Bool
deriving DecidableEq, Repr

instance : Inhabited SyncPeer :=
  ⟨{ node_id := [], reported_height := 0, sync_speed := 0, reliability := 0,
     is_syncing := false }⟩

/-- Rust `SyncRequest`. -/
structure SyncRequest where
  start_height : Nat
  end_height : Nat
  max_blocks : Nat
deriving DecidableEq, Repr

/-- Rust `SyncResponse`. -/
structure SyncResponse where
  blocks : List Block
  start_height : Nat
  is_final : Bool
  peer_height : Nat
deriving DecidableEq, Repr

/-- Rust `SyncManager` state.  The `VecDeque` pending buffer is a list whose
head is the front. -/
structure SyncManager where
  current_height : Nat
  target_height : Nat
  sync_mode : SyncMode
  pending_blocks : List Block
  sync_peers : List SyncPeer
deriving DecidableEq, Repr

namespace SyncManager

/-- Rust `SyncManager::new`. -/
def new (current_height : Nat) : SyncManager :=
  { current_height := current_height
    target_height := current_height
    sync_mode := .Synced
    pending_blocks := []
    sync_peers := [] }

/-- Rust `SyncManager::update_peer_height`: update the first peer with a
matching id, or push a fresh peer (speed 10, reliability 0.8, not
syncing) at the end. -/
def update_peer_height (peers : List SyncPeer) (node_id : List Nat)
    (height : Nat) : List SyncPeer :=
  match peers with
  | [] =>
    [{ node_id := node_id, reported_height := height, sync_speed := 10,
       reliability := 8/10, is_syncing := false }]
  | p :: rest =>
    if p.node_id = node_id then { p with reported_height := height } :: rest
    else p :: update_peer_height rest node_id height

/-- The maximum reported height: `.map(h).max().unwrap_or(0)`. -/
def max_peer_height (peer_heights : List (List Nat × Nat)) : Nat :=
  peer_heights.foldl (fun acc pr => Nat.max acc pr.2) 0

/-- Rust `SyncManager::start_sync`: pick a mode from the height gap. -/
def start_sync (s : SyncManager) (height_diff : Nat) : SyncManager :=
  { s with sync_mode :=
      if 1000 < height_diff then .FastSync (s.target_height - 100)
      else if 100 < height_diff then .FullSync (s.current_height + 1)
      else .BlockSync (s.current_height + 1, s.target_height) }

/-- Rust `SyncManager::check_sync_needed`: record the reported heights,
compare the maximum against the local height, and either start a sync
(gap > 10) or transition to `Synced`. -/
def check_sync_needed (s : SyncManager) (peer_heights : List (List Nat × Nat)) :
    SyncManager × Bool :=
  if peer_heights = [] then (s, false)
  else
    let max_height := max_peer_height peer_heights
    let s := { s with sync_peers :=
      peer_heights.foldl (fun ps (pr : List Nat × Nat) => update_peer_height ps pr.1 pr.2) s.sync_peers }
    let height_diff := max_height - s.current_height
    if 10 < height_diff then
      (start_sync { s with target_height := max_height } height_diff, true)
    else
      ({ s with sync_mode := .Synced }, false)

/-- The `while let Some(front)` loop of `process_pending_blocks`: apply
front blocks while their height is exactly the successor of the current
height. -/
def process_pending_loop : Nat → List Block → Nat × List Block
  | current, [] => (current, [])
  | current, b :: rest =>
    if b.header.height = current + 1 then process_pending_loop (current + 1) rest
    else (current, b :: rest)

/-- Rust `SyncManager::process_pending_blocks`: drain the contiguous prefix of
the buffer, then transition to `Synced` once the target is reached. -/
def process_pending_blocks (s : SyncManager) : SyncManager :=
  let r := process_pending_loop s.current_height s.pending_blocks
  let s := { s with current_height := r.1, pending_blocks := r.2 }
  if s.target_height ≤ s.current_height then { s with sync_mode := .Synced }
  else s

/-- Rust `SyncManager::validate_block`: the source is an explicit stub — the
comment reads `TODO: Implement proper block validation` and the body
returns `true` unconditionally. -/
def validate_block (_s : SyncManager) (_b : Block) : Bool :=
  true

/-- Rust `SyncManager::penalize_peer`: halve the first matching peer's
reliability, floored at 0.1. -/
def penalize_peer (peers : List SyncPeer) (peer_id : List Nat) : List SyncPeer :=
  match peers with
  | [] => []
  | p :: rest =>
    if p.node_id = peer_id then
      { p with reliability := max (p.reliability * (5/10)) (1/10) } :: rest
    else p :: penalize_peer rest peer_id

/-- The post-loop peer update in `process_sync_response`: record the
peer's height and, when at least one block was queued, nudge reliability
up by `r ↦ 0.9·r + 0.1`. -/
def reward_peer (peers : List SyncPeer) (peer_id : List Nat)
    (peer_height : Nat) (blocks_processed : Nat) : List SyncPeer :=
  match peers with
  | [] => []
  | p :: rest =>
    if p.node_id = peer_id then
      (if 0 < blocks_processed then
        { p with reported_height := peer_height,
                 reliability := p.reliability * (9/10) + 1/10 }
      else { p with reported_height := peer_height }) :: rest
    else p :: reward_peer rest peer_id peer_height blocks_processed

/-- Rust `SyncManager::process_sync_response`: queue each block that passes
`validate_block` (penalizing the sender for each one that does not),
update the sender's record, then drain the pending buffer.  The source
returns `Ok(blocks_processed)`; the count is the second component. -/
def process_sync_response (s : SyncManager) (response : SyncResponse)
    (from_peer : List Nat) : SyncManager × Nat :=
  let step := fun (acc : SyncManager × Nat) (b : Block) =>
    if validate_block acc.1 b then
      ({ acc.1 with pending_blocks := acc.1.pending_blocks ++ [b] }, acc.2 + 1)
    else
      ({ acc.1 with sync_peers := penalize_peer acc.1.sync_peers from_peer }, acc.2)
  let r := response.blocks.foldl step (s, 0)
  let s1 := { r.1 with
    sync_peers := reward_peer r.1.sync_peers from_peer response.peer_height r.2 }
  (process_pending_blocks s1, r.2)

/-- Peer eligibility in `create_sync_request`'s filter: reported height
above the local height and reliability above 0.5. -/
def eligible_peer (current_height : Nat) (p : SyncPeer) : Bool :=
  decide (current_height < p.reported_height) && decide ((5:ℚ)/10 < p.reliability)

/-- A peer's selection score in `create_sync_request`. -/
def peer_score (p : SyncPeer) : ℚ :=
  p.sync_speed * p.reliability

/-- The `filter(...).max_by(score)` scan of `create_sync_request`,
tracking the index and score of the best eligible peer so far; on score
ties the later peer wins, as Rust's `max_by` keeps the last maximum. -/
def best_peer_scan (current_height : Nat) :
    List SyncPeer → Nat → Option (Nat × ℚ) → Option (Nat × ℚ)
  | [], _, acc => acc
  | p :: rest, index, none =>
    best_peer_scan current_height rest (index + 1)
      (if eligible_peer current_height p then some (index, peer_score p) else none)
  | p :: rest, index, some (j, sc) =>
    best_peer_scan current_height rest (index + 1)
      (if eligible_peer current_height p then
        (if sc ≤ peer_score p then some (index, peer_score p) else some (j, sc))
      else some (j, sc))

/-- Set `is_syncing := true` on the peer at the given position. -/
def set_syncing : List SyncPeer → Nat → List SyncPeer
  | [], _ => []
  | p :: rest, 0 => { p with is_syncing := true } :: rest
  | p :: rest, i + 1 => p :: set_syncing rest i

/-- Rust `SyncManager::create_sync_request`: pick the best eligible peer (the
`?` operator returns `None` untouched when there is none), mark it as
syncing, and then build a request from the mode — `Synced` yields `None`
after the mark has already been written. -/
def create_sync_request (s : SyncManager) : SyncManager × Option (SyncRequest × List Nat) :=
  match best_peer_scan s.current_height s.sync_peers 0 none with
  | none => (s, none)
  | some (i, _) =>
    let s1 := { s with sync_peers := set_syncing s.sync_peers i }
    let node_id := (s.sync_peers.getD i default).node_id
    match s.sync_mode with
    | .FastSync checkpoint_height =>
      (s1, some ({ start_height := checkpoint_height, end_height := s.target_height,
                   max_blocks := 100 }, node_id))
    | .FullSync start_height =>
      (s1, some ({ start_height := start_height,
                   end_height := Nat.min (start_height + 50) s.target_height,
                   max_blocks := 50 }, node_id))
    | .BlockSync missing_range =>
      (s1, some ({ start_height := missing_range.1, end_height := missing_range.2,
                   max_blocks :=
                     Nat.min ((missing_range.2 - missing_range.1 + 1) % 2 ^ 32) 20 },
                 node_id))
    | .Synced => (s1, none)

/-- Rust `SyncManager::cleanup_inactive_peers`: drop peers at or below
reliability 0.1. -/
def cleanup_inactive_peers (s : SyncManager) : SyncManager :=
  { s with sync_peers := s.sync_peers.filter (fun p => decide ((1:ℚ)/10 < p.reliability)) }

end SyncManager

/-! ## Concrete scenario states used by individual claims -/

/-- A structurally invalid block (`version = 0`, so `Block::validate`
rejects it no matter what the signature oracle says): height 105,
consistent all-zero Merkle root over an empty transaction list. -/
def bad_block_v0 : Block :=
  { header :=
      { version := 0, previous_hash := Hash.zero, merkle_root := Hash.zero,
        timestamp := 0, height := 105, consensus_data := .FastLane [1, 2, 3, 4] }
    transactions := [] }

/-- A manager mid-`BlockSync` at height 100 (target 110) knowing one
peer `[1,2,3,4]` of reliability 0.8. -/
def sync_manager_at_100 : SyncManager :=
  { current_height := 100, target_height := 110
    sync_mode := .BlockSync (101, 110), pending_blocks := []
    sync_peers :=
      [{ node_id := [1, 2, 3, 4], reported_height := 105, sync_speed := 10,
         reliability := 8/10, is_syncing := true }] }

/-- A sync response delivering only `bad_block_v0`. -/
def bad_block_response : SyncResponse :=
  { blocks := [bad_block_v0], start_height := 105, is_final := false,
    peer_height := 110 }

/-- A fully valid block at height 105 (version 1, Merkle root matching
its empty transaction list, no transactions to check). -/
def valid_block_105 : Block :=
  { header :=
      { version := 1, previous_hash := Hash.zero, merkle_root := Hash.zero,
        timestamp := 0, height := 105, consensus_data := .FastLane [1, 2, 3, 4] }
    transactions := [] }

/-- A sync response delivering only `valid_block_105`. -/
def valid_block_response : SyncResponse :=
  { blocks := [valid_block_105], start_height := 105, is_final := false,
    peer_height := 110 }

/-- State `sync_manager_at_100` with `valid_block_105` already buffered. -/
def sync_manager_with_gap : SyncManager :=
  { sync_manager_at_100 with pending_blocks := [valid_block_105] }

/-- A manager that is `Synced` yet knows an eligible (taller, reliable)
peer — the `create_sync_request` frame-effect scenario. -/
def synced_manager_with_peer : SyncManager :=
  { current_height := 100, target_height := 100, sync_mode := .Synced
    pending_blocks := []
    sync_peers :=
      [{ node_id := [7, 7, 7, 7], reported_height := 140, sync_speed := 10,
         reliability := 9/10, is_syncing := false }] }

/-! # Theorems -/

/-! ## Claim C1 / C7 — Merkle commitment -/

/-- C1: the roundtrip guarantee fails on the code.  For the three-item
list `[[0],[1],[2]]` and index 2 (a valid index of a non-power-of-two
input), `generate_proof` does return `Some proof`, but `verify_proof`
rejects that proof: the generator pushes no path element when the node
has no sibling in an odd level, while `calculate_root` hashes that node
with itself there. -/
theorem merkle_roundtrip_fails_on_three_leaves :
    ((MerkleTree.new [[0], [1], [2]]).generate_proof 2).isSome = true ∧
    ((MerkleTree.new [[0], [1], [2]]).generate_proof 2).map MerkleTree.verify_proof
      = some false := by
  constructor <;>
    simp [MerkleTree.new, MerkleTree.generate_proof, MerkleTree.generate_proof_loop,
      MerkleTree.next_level, MerkleTree.verify_proof, MerkleTree.calculate_root]

/-- C7: `MerkleTree` construction.  Empty input commits to the all-zero
hash; a single item's root is that item's leaf hash with no combination
step; with two or more items the root folds one pairing level (adjacent
pairs hashed, an unpaired last element hashed with itself) and recurses —
the recursion (with the base cases) pins the whole construction down. -/
theorem merkle_construction_cases :
    (MerkleTree.new []).root = Hash.zero ∧
    (∀ x, (MerkleTree.new [x]).root = Hash.leaf x) ∧
    (∀ a b rest, (MerkleTree.new (a :: b :: rest)).root =
      MerkleTree.calculate_root
        (MerkleTree.next_level (Hash.leaf a :: Hash.leaf b :: rest.map Hash.leaf))) ∧
    (∀ h, MerkleTree.next_level [h] = [Hash.node h h]) ∧
    (∀ h h2 rest, MerkleTree.next_level (h :: h2 :: rest) =
      Hash.node h h2 :: MerkleTree.next_level rest) := by
  refine ⟨rfl, fun x => ?_, fun a b rest => ?_, fun h => rfl, fun h h2 rest => rfl⟩
  · simp [MerkleTree.new, MerkleTree.calculate_root]
  · show MerkleTree.calculate_root (Hash.leaf a :: Hash.leaf b :: rest.map Hash.leaf) = _
    rw [MerkleTree.calculate_root]

/-! ## Claim C6 — validation pipeline -/

/-- C6: `Block::validate` accepts exactly when the version is nonzero,
the recomputed Merkle root equals the declared one, and every
transaction validates; `Transaction::validate` accepts exactly when
sender and recipient are non-empty, the transaction moves value or
carries data, and the signature verifies over the canonical signing
encoding `(from, to, amount, fee, nonce, data)` against the sender key.
Both functions are total (never panic), for every signature oracle. -/
theorem block_and_transaction_validate_iff
    (verify_sig : List Nat → List Nat → List Nat → Bool) :
    (∀ b : Block, Block.validate verify_sig b = true ↔
      (b.header.version ≠ 0 ∧
       Block.calculate_merkle_root b.transactions = b.header.merkle_root ∧
       ∀ tx ∈ b.transactions, Transaction.validate verify_sig tx = true)) ∧
    (∀ tx : Transaction, Transaction.validate verify_sig tx = true ↔
      (tx.from_ ≠ [] ∧ tx.to_ ≠ [] ∧ ¬(tx.amount = 0 ∧ tx.data = []) ∧
       verify_sig tx.signature tx.get_signing_data tx.from_ = true)) := by
  constructor
  · intro b
    unfold Block.validate
    split_ifs with h1 h2
    · simp [h1]
    · simp only [Bool.false_eq_true, false_iff]
      tauto
    · push_neg at h2
      simp [List.all_eq_true, h1, h2]
  · intro tx
    unfold Transaction.validate
    split_ifs with h1 h2
    · simp only [Bool.false_eq_true, false_iff]
      tauto
    · simp only [Bool.false_eq_true, false_iff]
      tauto
    · push_neg at h1
      simp [h1.1, h1.2, h2]

/-! ## Claims C3, C8, C9 — consensus router -/

/-- C8: `confidence()` is exactly the average of `1 − congestion`,
`1 − attack_probability` and `(2 − cpu − mem) / 2`, and it lands in
`[0, 1]` whenever the four input fields do. -/
theorem confidence_is_average_and_bounded (model : AIModel) (m : NetworkMetrics) :
    model.calculate_confidence m =
      ((1 - m.congestion_level) + (1 - m.attack_probability) +
        (2 - m.cpu_usage - m.memory_usage) / 2) / 3 ∧
    (0 ≤ m.attack_probability → m.attack_probability ≤ 1 →
     0 ≤ m.congestion_level → m.congestion_level ≤ 1 →
     0 ≤ m.cpu_usage → m.cpu_usage ≤ 1 →
     0 ≤ m.memory_usage → m.memory_usage ≤ 1 →
     0 ≤ model.calculate_confidence m ∧ model.calculate_confidence m ≤ 1) := by
  refine ⟨rfl, fun ha1 ha2 hc1 hc2 hu1 hu2 hm1 hm2 => ?_⟩
  unfold AIModel.calculate_confidence
  constructor <;> [linarith; linarith]

/-- Witness for C8 at the source's default metrics
(attack 0.1, congestion 0.3, cpu 0.4, memory 0.5). -/
theorem confidence_is_average_and_bounded_witness :
    (0 ≤ NetworkMetrics.default.attack_probability ∧
     NetworkMetrics.default.attack_probability ≤ 1 ∧
     0 ≤ NetworkMetrics.default.congestion_level ∧
     NetworkMetrics.default.congestion_level ≤ 1 ∧
     0 ≤ NetworkMetrics.default.cpu_usage ∧ NetworkMetrics.default.cpu_usage ≤ 1 ∧
     0 ≤ NetworkMetrics.default.memory_usage ∧
     NetworkMetrics.default.memory_usage ≤ 1) ∧
    0 ≤ AIModel.new.calculate_confidence NetworkMetrics.default ∧
    AIModel.new.calculate_confidence NetworkMetrics.default ≤ 1 := by
  refine ⟨by norm_num [NetworkMetrics.default], ?_⟩
  exact (confidence_is_average_and_bounded AIModel.new NetworkMetrics.default).2
    (by norm_num [NetworkMetrics.default]) (by norm_num [NetworkMetrics.default])
    (by norm_num [NetworkMetrics.default]) (by norm_num [NetworkMetrics.default])
    (by norm_num [NetworkMetrics.default]) (by norm_num [NetworkMetrics.default])
    (by norm_num [NetworkMetrics.default]) (by norm_num [NetworkMetrics.default])

/-- C3: `select_optimal_path` agrees with the spec's four-rule priority
list (`select_optimal_path_from_spec`, transcribed from §4.3) on every
router state. -/
theorem select_optimal_path_matches_spec (r : ConsensusRouter) :
    r.select_optimal_path = select_optimal_path_from_spec r.network_metrics := by
  unfold ConsensusRouter.select_optimal_path select_optimal_path_from_spec
    confidence_from_spec AIModel.calculate_confidence
  simp only [gt_iff_lt]
  split_ifs <;> simp [Nat.max_comm, mul_comm]

/-- C9: the adapted `AIModel` weights never influence path selection —
two routers over the same metrics snapshot but arbitrary (e.g.
differently adapted) models select the same path. -/
theorem weights_do_not_influence_path (m : NetworkMetrics) (a1 a2 : AIModel) :
    ConsensusRouter.select_optimal_path { network_metrics := m, ai_model := a1 } =
    ConsensusRouter.select_optimal_path { network_metrics := m, ai_model := a2 } :=
  rfl

/-! ## Claim C2 — sync response validation (stubbed in the source) -/

/-- C2 fails on the code: `SyncManager::validate_block` is a `TODO` stub
returning `true`, so `process_sync_response` never consults the §4.2
validation pipeline.  Concretely, `bad_block_v0` (version 0) is rejected
by `Block::validate` under every signature oracle, yet the manager
buffers it, counts it as processed, and *raises* the reporting peer's
reliability from 0.8 to 0.82 instead of halving it to 0.4. -/
theorem sync_response_accepts_invalid_block :
    (∀ verify_sig, Block.validate verify_sig bad_block_v0 = false) ∧
    (sync_manager_at_100.process_sync_response bad_block_response
      [1, 2, 3, 4]).1.pending_blocks = [bad_block_v0] ∧
    ((sync_manager_at_100.process_sync_response bad_block_response
      [1, 2, 3, 4]).1.sync_peers.map SyncPeer.reliability) = [41/50] ∧
    (sync_manager_at_100.process_sync_response bad_block_response
      [1, 2, 3, 4]).2 = 1 := by
  refine ⟨fun verify_sig => rfl, rfl, ?_, rfl⟩
  show [(8:ℚ)/10 * (9/10) + 1/10] = [41/50]
  norm_num

/-! ## Claim C4 — sync-need detection -/

theorem update_peer_height_records (ps : List SyncPeer) (id : List Nat) (h : Nat) :
    ∃ p ∈ SyncManager.update_peer_height ps id h,
      p.node_id = id ∧ p.reported_height = h := by
  induction ps with
  | nil =>
    exact ⟨{ node_id := id, reported_height := h, sync_speed := 10,
             reliability := 8/10, is_syncing := false },
      by simp [SyncManager.update_peer_height], rfl, rfl⟩
  | cons q rest ih =>
    by_cases hq : q.node_id = id
    · exact ⟨{ q with reported_height := h },
        by simp [SyncManager.update_peer_height, hq], hq, rfl⟩
    · obtain ⟨p, hmem, h1, h2⟩ := ih
      exact ⟨p, by simp [SyncManager.update_peer_height, hq, hmem], h1, h2⟩

theorem update_peer_height_preserves (ps : List SyncPeer) (id : List Nat) (h : Nat)
    (id0 : List Nat) (h0 : Nat) (hne : id0 ≠ id)
    (hex : ∃ p ∈ ps, p.node_id = id0 ∧ p.reported_height = h0) :
    ∃ p ∈ SyncManager.update_peer_height ps id h,
      p.node_id = id0 ∧ p.reported_height = h0 := by
  induction ps with
  | nil => simp at hex
  | cons q rest ih =>
    obtain ⟨p, hp, h1, h2⟩ := hex
    rcases List.mem_cons.mp hp with rfl | hmem
    · have hq : ¬p.node_id = id := fun hEq => hne (h1.symm.trans hEq)
      exact ⟨p, by simp [SyncManager.update_peer_height, hq], h1, h2⟩
    · by_cases hq : q.node_id = id
      · exact ⟨p, by simp [SyncManager.update_peer_height, hq, hmem], h1, h2⟩
      · obtain ⟨p2, hp2, g1, g2⟩ := ih ⟨p, hmem, h1, h2⟩
        exact ⟨p2, by simp [SyncManager.update_peer_height, hq, hp2], g1, g2⟩

theorem foldl_update_preserves :
    ∀ (phs : List (List Nat × Nat)) (ps : List SyncPeer) (id0 : List Nat) (h0 : Nat),
    (∀ pr ∈ phs, pr.1 ≠ id0) →
    (∃ p ∈ ps, p.node_id = id0 ∧ p.reported_height = h0) →
    ∃ p ∈ phs.foldl (fun acc pr => SyncManager.update_peer_height acc pr.1 pr.2) ps,
      p.node_id = id0 ∧ p.reported_height = h0 := by
  intro phs
  induction phs with
  | nil => intro ps id0 h0 _ hex; simpa using hex
  | cons q rest ih =>
    intro ps id0 h0 hnot hex
    simp only [List.foldl_cons]
    refine ih _ _ _ (fun pr hpr => hnot pr (List.mem_cons_of_mem q hpr)) ?_
    exact update_peer_height_preserves ps q.1 q.2 id0 h0
      (fun hEq => hnot q (List.mem_cons_self q rest) hEq.symm) hex

theorem foldl_update_records :
    ∀ (phs : List (List Nat × Nat)) (ps : List SyncPeer),
    (phs.map Prod.fst).Nodup →
    ∀ pr ∈ phs,
    ∃ p ∈ phs.foldl (fun acc pr2 => SyncManager.update_peer_height acc pr2.1 pr2.2) ps,
      p.node_id = pr.1 ∧ p.reported_height = pr.2 := by
  intro phs
  induction phs with
  | nil => intro ps _ pr hpr; simp at hpr
  | cons q rest ih =>
    intro ps hnodup pr hpr
    simp only [List.map_cons, List.nodup_cons] at hnodup
    rcases List.mem_cons.mp hpr with rfl | hmem
    · simp only [List.foldl_cons]
      refine foldl_update_preserves rest _ pr.1 pr.2 ?_
        (update_peer_height_records ps pr.1 pr.2)
      intro pr2 hpr2 hEq
      exact hnodup.1 (hEq ▸ List.mem_map_of_mem Prod.fst hpr2)
    · simp only [List.foldl_cons]
      exact ih _ hnodup.2 pr hmem

/-- The peer list an arbitrary `check_sync_needed` call leaves behind:
both branches keep the recorded heights. -/
theorem check_sync_needed_peers (s : SyncManager) (phs : List (List Nat × Nat))
    (hne : phs ≠ []) :
    (s.check_sync_needed phs).1.sync_peers =
      phs.foldl (fun ps pr => SyncManager.update_peer_height ps pr.1 pr.2)
        s.sync_peers := by
  unfold SyncManager.check_sync_needed
  rw [if_neg hne]
  dsimp only
  split_ifs <;> rfl

/-- C4: `check_sync_needed` records every reporting peer's height (for a
duplicate-free report list); when the maximum reported height exceeds the
local height by more than 10 it returns `true`, retargets to that
maximum, and picks the mode from the gap (FastSync / FullSync /
BlockSync); when the gap is at most 10 it returns `false` and goes
`Synced`.  In particular, at height 100 with peers reporting
`[150, 145, 155]` the target becomes 155 and the mode
`BlockSync (101, 155)`. -/
theorem check_sync_needed_spec (s : SyncManager) (phs : List (List Nat × Nat))
    (hne : phs ≠ []) (hnodup : (phs.map Prod.fst).Nodup) :
    (∀ pr ∈ phs, ∃ p ∈ (s.check_sync_needed phs).1.sync_peers,
       p.node_id = pr.1 ∧ p.reported_height = pr.2) ∧
    (10 < SyncManager.max_peer_height phs - s.current_height →
       (s.check_sync_needed phs).2 = true ∧
       (s.check_sync_needed phs).1.target_height = SyncManager.max_peer_height phs ∧
       (s.check_sync_needed phs).1.sync_mode =
         (if 1000 < SyncManager.max_peer_height phs - s.current_height then
            SyncMode.FastSync (SyncManager.max_peer_height phs - 100)
          else if 100 < SyncManager.max_peer_height phs - s.current_height then
            SyncMode.FullSync (s.current_height + 1)
          else
            SyncMode.BlockSync (s.current_height + 1, SyncManager.max_peer_height phs))) ∧
    (SyncManager.max_peer_height phs - s.current_height ≤ 10 →
       (s.check_sync_needed phs).2 = false ∧
       (s.check_sync_needed phs).1.sync_mode = SyncMode.Synced) ∧
    (((SyncManager.new 100).check_sync_needed
        [([1, 2, 3, 4], 150), ([5, 6, 7, 8], 145), ([9, 10, 11, 12], 155)]).2 = true ∧
     ((SyncManager.new 100).check_sync_needed
        [([1, 2, 3, 4], 150), ([5, 6, 7, 8], 145), ([9, 10, 11, 12], 155)]).1.target_height
       = 155 ∧
     ((SyncManager.new 100).check_sync_needed
        [([1, 2, 3, 4], 150), ([5, 6, 7, 8], 145), ([9, 10, 11, 12], 155)]).1.sync_mode
       = SyncMode.BlockSync (101, 155)) := by
  refine ⟨?_, ?_, ?_, by decide, by decide, by decide⟩
  · intro pr hpr
    rw [check_sync_needed_peers s phs hne]
    exact foldl_update_records phs s.sync_peers hnodup pr hpr
  · intro hgap
    unfold SyncManager.check_sync_needed
    rw [if_neg hne]
    dsimp only
    rw [if_pos hgap]
    unfold SyncManager.start_sync
    exact ⟨rfl, rfl, rfl⟩
  · intro hgap
    unfold SyncManager.check_sync_needed
    rw [if_neg hne]
    dsimp only
    rw [if_neg (by omega)]
    exact ⟨rfl, rfl⟩

/-! ## Claim C5 — strictly ordered block application -/

/-- The loop `process_pending_loop` applies exactly the contiguous prefix: if the
first `k` buffered heights are `current+1, …, current+k` and the block
after them (if any) does not continue the run, the loop returns
`current + k` and drops exactly those `k` blocks. -/
theorem process_pending_loop_spec :
    ∀ (blocks : List Block) (current k : Nat),
    (blocks.take k).map (fun b => b.header.height) = List.range' (current + 1) k →
    (∀ b ∈ (blocks.drop k).head?, b.header.height ≠ current + k + 1) →
    SyncManager.process_pending_loop current blocks = (current + k, blocks.drop k) := by
  intro blocks
  induction blocks with
  | nil =>
    intro current k hcontig _
    have hk : k = 0 := by simpa using (congrArg List.length hcontig).symm
    subst hk
    rfl
  | cons b rest ih =>
    intro current k hcontig hstop
    match k with
    | 0 =>
      have hb : b.header.height ≠ current + 0 + 1 := hstop b rfl
      simp only [SyncManager.process_pending_loop, Nat.add_zero] at hb ⊢
      rw [if_neg hb]
      simp
    | k' + 1 =>
      simp only [List.take_succ_cons, List.map_cons, List.range'_succ,
        List.cons.injEq] at hcontig
      obtain ⟨hb, htl⟩ := hcontig
      simp only [SyncManager.process_pending_loop]
      rw [if_pos hb]
      have hstop' : ∀ b2 ∈ (rest.drop k').head?,
          b2.header.height ≠ (current + 1) + k' + 1 := by
        intro b2 hb2
        have := hstop b2 (by simpa using hb2)
        omega
      rw [ih (current + 1) k' htl hstop']
      refine Prod.ext ?_ rfl
      simp
      omega

/-- C5: `process_pending_blocks` advances `current_height` by exactly
the length `k` of the contiguous height run at the buffer's front,
leaves the rest of the buffer untouched, and flips the mode to `Synced`
exactly when the new height has reached the target.  In particular (the
spec's scenario) feeding a block that is valid by §4.2 at height 105
while the height is 100 leaves it buffered with the height unchanged. -/
theorem process_pending_blocks_ordered (s : SyncManager) (k : Nat)
    (hcontig : (s.pending_blocks.take k).map (fun b => b.header.height) =
      List.range' (s.current_height + 1) k)
    (hstop : ∀ b ∈ (s.pending_blocks.drop k).head?,
      b.header.height ≠ s.current_height + k + 1) :
    (s.process_pending_blocks.current_height = s.current_height + k ∧
     s.process_pending_blocks.pending_blocks = s.pending_blocks.drop k ∧
     s.process_pending_blocks.sync_mode =
       (if s.target_height ≤ s.current_height + k then SyncMode.Synced
        else s.sync_mode)) ∧
    ((sync_manager_at_100.process_sync_response valid_block_response
        [1, 2, 3, 4]).1.current_height = 100 ∧
     (sync_manager_at_100.process_sync_response valid_block_response
        [1, 2, 3, 4]).1.pending_blocks = [valid_block_105] ∧
     ∀ verify_sig, Block.validate verify_sig valid_block_105 = true) := by
  refine ⟨?_, rfl, rfl, fun verify_sig => rfl⟩
  unfold SyncManager.process_pending_blocks
  rw [process_pending_loop_spec s.pending_blocks s.current_height k hcontig hstop]
  dsimp only
  split_ifs <;> exact ⟨rfl, rfl, rfl⟩

/-- Witness for C5: the gap scenario — a valid height-105 block buffered
at height 100 is not applied (`k = 0`). -/
theorem process_pending_blocks_ordered_witness :
    ((sync_manager_with_gap.pending_blocks.take 0).map (fun b => b.header.height) =
      List.range' (sync_manager_with_gap.current_height + 1) 0) ∧
    sync_manager_with_gap.process_pending_blocks.current_height =
      sync_manager_with_gap.current_height + 0 ∧
    sync_manager_with_gap.process_pending_blocks.pending_blocks =
      sync_manager_with_gap.pending_blocks.drop 0 ∧
    sync_manager_with_gap.process_pending_blocks.sync_mode =
      (if sync_manager_with_gap.target_height ≤
          sync_manager_with_gap.current_height + 0 then SyncMode.Synced
       else sync_manager_with_gap.sync_mode) := by
  refine ⟨rfl, ?_⟩
  exact (process_pending_blocks_ordered sync_manager_with_gap 0 rfl
    (by intro b hb; simp [sync_manager_with_gap, sync_manager_at_100] at hb
        subst hb; decide)).1

/-! ## Claim C10 — `create_sync_request` mutates even when `Synced` -/

theorem best_peer_scan_isSome_mono (c : Nat) :
    ∀ (ps : List SyncPeer) (i : Nat) (acc : Option (Nat × ℚ)), acc.isSome →
    (SyncManager.best_peer_scan c ps i acc).isSome := by
  intro ps
  induction ps with
  | nil => intro i acc h; simpa [SyncManager.best_peer_scan] using h
  | cons p rest ih =>
    intro i acc h
    obtain ⟨⟨j, sc⟩, rfl⟩ := Option.isSome_iff_exists.mp h
    simp only [SyncManager.best_peer_scan]
    apply ih
    split_ifs <;> simp

theorem best_peer_scan_isSome (c : Nat) :
    ∀ (ps : List SyncPeer) (i : Nat) (acc : Option (Nat × ℚ)),
    (∃ p ∈ ps, SyncManager.eligible_peer c p = true) →
    (SyncManager.best_peer_scan c ps i acc).isSome := by
  intro ps
  induction ps with
  | nil => intro i acc hex; simp at hex
  | cons p rest ih =>
    intro i acc hex
    by_cases hp : SyncManager.eligible_peer c p = true
    · rcases acc with _ | ⟨j, sc⟩
      · simp only [SyncManager.best_peer_scan]
        apply best_peer_scan_isSome_mono
        simp [hp]
      · simp only [SyncManager.best_peer_scan]
        apply best_peer_scan_isSome_mono
        split_ifs <;> simp
    · obtain ⟨q, hq, hqe⟩ := hex
      rcases List.mem_cons.mp hq with rfl | hmem
      · exact absurd hqe hp
      · rcases acc with _ | ⟨j, sc⟩ <;>
          (simp only [SyncManager.best_peer_scan]; exact ih (i + 1) _ ⟨q, hmem, hqe⟩)

theorem best_peer_scan_found (c : Nat) :
    ∀ (ps : List SyncPeer) (i : Nat) (acc : Option (Nat × ℚ)) (j : Nat) (sc : ℚ),
    SyncManager.best_peer_scan c ps i acc = some (j, sc) →
    acc = some (j, sc) ∨
      (i ≤ j ∧ j - i < ps.length ∧
       SyncManager.eligible_peer c (ps.getD (j - i) default) = true ∧
       sc = SyncManager.peer_score (ps.getD (j - i) default)) := by
  intro ps
  induction ps with
  | nil =>
    intro i acc j sc h
    exact Or.inl h
  | cons p rest ih =>
    intro i acc j sc h
    rcases acc with _ | ⟨j0, sc0⟩
    · simp only [SyncManager.best_peer_scan] at h
      rcases ih (i + 1) _ j sc h with hacc | ⟨h1, h2, h3, h4⟩
      · by_cases hp : SyncManager.eligible_peer c p = true
        · rw [if_pos hp] at hacc
          simp only [Option.some.injEq, Prod.mk.injEq] at hacc
          obtain ⟨he1, he2⟩ := hacc
          right
          have hji : j - i = 0 := by omega
          rw [hji]
          simp only [List.getD_cons_zero, List.length_cons]
          exact ⟨by omega, by omega, hp, he2.symm⟩
        · rw [if_neg hp] at hacc
          exact absurd hacc (by simp)
      · right
        have hsub : j - i = (j - (i + 1)) + 1 := by omega
        rw [hsub]
        simp only [List.getD_cons_succ, List.length_cons]
        exact ⟨by omega, by omega, h3, h4⟩
    · simp only [SyncManager.best_peer_scan] at h
      rcases ih (i + 1) _ j sc h with hacc | ⟨h1, h2, h3, h4⟩
      · by_cases hp : SyncManager.eligible_peer c p = true
        · rw [if_pos hp] at hacc
          by_cases hle : sc0 ≤ SyncManager.peer_score p
          · rw [if_pos hle] at hacc
            simp only [Option.some.injEq, Prod.mk.injEq] at hacc
            obtain ⟨he1, he2⟩ := hacc
            right
            have hji : j - i = 0 := by omega
            rw [hji]
            simp only [List.getD_cons_zero, List.length_cons]
            exact ⟨by omega, by omega, hp, he2.symm⟩
          · rw [if_neg hle] at hacc
            exact Or.inl hacc
        · rw [if_neg hp] at hacc
          exact Or.inl hacc
      · right
        have hsub : j - i = (j - (i + 1)) + 1 := by omega
        rw [hsub]
        simp only [List.getD_cons_succ, List.length_cons]
        exact ⟨by omega, by omega, h3, h4⟩

theorem best_peer_scan_maximal (c : Nat) :
    ∀ (ps : List SyncPeer) (i : Nat) (acc : Option (Nat × ℚ)) (j : Nat) (sc : ℚ),
    SyncManager.best_peer_scan c ps i acc = some (j, sc) →
    (∀ k, k < ps.length → SyncManager.eligible_peer c (ps.getD k default) = true →
       SyncManager.peer_score (ps.getD k default) ≤ sc) ∧
    (∀ j0 sc0, acc = some (j0, sc0) → sc0 ≤ sc) := by
  intro ps
  induction ps with
  | nil =>
    intro i acc j sc h
    simp only [SyncManager.best_peer_scan] at h
    refine ⟨by simp, fun j0 sc0 hacc => ?_⟩
    rw [hacc] at h
    simp only [Option.some.injEq, Prod.mk.injEq] at h
    exact h.2.le
  | cons p rest ih =>
    intro i acc j sc h
    rcases acc with _ | ⟨j0, sc0⟩
    · simp only [SyncManager.best_peer_scan] at h
      obtain ⟨ihrest, ihacc⟩ := ih (i + 1) _ j sc h
      constructor
      · intro k hk hke
        match k with
        | 0 =>
          simp only [List.getD_cons_zero] at hke ⊢
          exact ihacc i _ (by rw [if_pos hke])
        | k' + 1 =>
          simp only [List.getD_cons_succ] at hke ⊢
          exact ihrest k' (by simp only [List.length_cons] at hk; omega) hke
      · intro j1 sc1 hacc
        exact absurd hacc (by simp)
    · simp only [SyncManager.best_peer_scan] at h
      obtain ⟨ihrest, ihacc⟩ := ih (i + 1) _ j sc h
      have hsc0 : sc0 ≤ sc := by
        by_cases hp : SyncManager.eligible_peer c p = true
        · by_cases hle : sc0 ≤ SyncManager.peer_score p
          · exact hle.trans (ihacc i _ (by rw [if_pos hp, if_pos hle]))
          · exact ihacc j0 sc0 (by rw [if_pos hp, if_neg hle])
        · exact ihacc j0 sc0 (by rw [if_neg hp])
      constructor
      · intro k hk hke
        match k with
        | 0 =>
          simp only [List.getD_cons_zero] at hke ⊢
          by_cases hle : sc0 ≤ SyncManager.peer_score p
          · exact ihacc i _ (by rw [if_pos hke, if_pos hle])
          · exact (not_le.mp hle).le.trans hsc0
        | k' + 1 =>
          simp only [List.getD_cons_succ] at hke ⊢
          exact ihrest k' (by simp only [List.length_cons] at hk; omega) hke
      · intro j1 sc1 hacc
        simp only [Option.some.injEq, Prod.mk.injEq] at hacc
        exact hacc.2 ▸ hsc0

/-- C10: with the mode `Synced` but an eligible peer known (taller than
the local height, reliability above 0.5), `create_sync_request` returns
`None` and still mutates the manager: the best-scoring eligible peer is
marked `is_syncing` before the mode is consulted. -/
theorem create_sync_request_synced_still_mutates (s : SyncManager)
    (hmode : s.sync_mode = SyncMode.Synced)
    (hex : ∃ p ∈ s.sync_peers,
      s.current_height < p.reported_height ∧ (5:ℚ)/10 < p.reliability) :
    ∃ i, i < s.sync_peers.length ∧
      SyncManager.eligible_peer s.current_height (s.sync_peers.getD i default) = true ∧
      (∀ k, k < s.sync_peers.length →
        SyncManager.eligible_peer s.current_height (s.sync_peers.getD k default) = true →
        SyncManager.peer_score (s.sync_peers.getD k default) ≤
          SyncManager.peer_score (s.sync_peers.getD i default)) ∧
      s.create_sync_request =
        ({ s with sync_peers := SyncManager.set_syncing s.sync_peers i }, none) := by
  have hex2 : ∃ p ∈ s.sync_peers, SyncManager.eligible_peer s.current_height p = true := by
    obtain ⟨p, hp, h1, h2⟩ := hex
    exact ⟨p, hp, by simp [SyncManager.eligible_peer, h1, h2]⟩
  obtain ⟨⟨j, sc⟩, hscan⟩ := Option.isSome_iff_exists.mp
    (best_peer_scan_isSome s.current_height s.sync_peers 0 none hex2)
  rcases best_peer_scan_found s.current_height s.sync_peers 0 none j sc hscan with
    hcontra | ⟨_, hlen, helig, hscore⟩
  · exact absurd hcontra (by simp)
  · have hscore2 : sc = SyncManager.peer_score (s.sync_peers.getD j default) := by
      simpa using hscore
    refine ⟨j, by simpa using hlen, by simpa using helig, ?_, ?_⟩
    · intro k hk hke
      rw [← hscore2]
      exact (best_peer_scan_maximal s.current_height s.sync_peers 0 none
        j sc hscan).1 k hk hke
    · unfold SyncManager.create_sync_request
      rw [hscan, hmode]

/-- Witness for C10: a `Synced` manager knowing one eligible peer — the
request is `None` yet the peer list changes. -/
theorem create_sync_request_synced_still_mutates_witness :
    synced_manager_with_peer.sync_mode = SyncMode.Synced ∧
    synced_manager_with_peer.create_sync_request =
      ({ synced_manager_with_peer with
          sync_peers := SyncManager.set_syncing synced_manager_with_peer.sync_peers 0 },
        none) := by
  refine ⟨rfl, ?_⟩
  obtain ⟨i, hi, _, _, heq⟩ :=
    create_sync_request_synced_still_mutates synced_manager_with_peer rfl
      ⟨{ node_id := [7, 7, 7, 7], reported_height := 140, sync_speed := 10,
         reliability := 9/10, is_syncing := false },
       by simp [synced_manager_with_peer], by norm_num [synced_manager_with_peer],
       by norm_num [synced_manager_with_peer]⟩
  have hz : i = 0 := by
    simpa [synced_manager_with_peer] using hi
  rw [hz] at heq
  exact heq

/-- Witness for C4: the spec's own scenario (height 100, reports
150/145/155). -/
theorem check_sync_needed_spec_witness :
    ([([1, 2, 3, 4], 150), ([5, 6, 7, 8], 145),
      ([9, 10, 11, 12], 155)] : List (List Nat × Nat)) ≠ [] ∧
    (([([1, 2, 3, 4], 150), ([5, 6, 7, 8], 145),
       ([9, 10, 11, 12], 155)] : List (List Nat × Nat)).map Prod.fst).Nodup ∧
    (((SyncManager.new 100).check_sync_needed
        [([1, 2, 3, 4], 150), ([5, 6, 7, 8], 145), ([9, 10, 11, 12], 155)]).2 = true ∧
     ((SyncManager.new 100).check_sync_needed
        [([1, 2, 3, 4], 150), ([5, 6, 7, 8], 145), ([9, 10, 11, 12], 155)]).1.target_height
       = 155 ∧
     ((SyncManager.new 100).check_sync_needed
        [([1, 2, 3, 4], 150), ([5, 6, 7, 8], 145), ([9, 10, 11, 12], 155)]).1.sync_mode
       = SyncMode.BlockSync (101, 155)) :=
  ⟨by decide, by decide,
    (check_sync_needed_spec (SyncManager.new 100)
      [([1, 2, 3, 4], 150), ([5, 6, 7, 8], 145), ([9, 10, 11, 12], 155)]
      (by decide) (by decide)).2.2.2⟩
